import Mathlib

/-!
# Verification of the numba specialization dispatcher and extension-type builder

Shallow embedding of `numba/decorators.py` and `numba/exttypes/jitclass.py`:
the specialization cache path (`compile_function`, `resolve_argtypes`, the
`jit`/`autojit`/`export` entry points) and the extension-class builder
(`inherit_attributes`, `_construct_native_attribute_struct`,
`verify_base_class_compatibility`, `_compile_methods`).

Python dictionaries are modelled as insertion-ordered association lists,
runtime values and compiled artifacts as abstract identifiers, and the
external collaborators (the pipeline, the type mapper, template resolution)
as explicit function parameters.
-/

set_option autoImplicit false

namespace Numba

/-- The closed set of semantic types the type resolver draws from
(numeric kinds, object kind, pointers, extension types). -/
inductive Ty where
  | f8 : Ty
  | f4 : Ty
  | i8 : Ty
  | i4 : Ty
  | obj : Ty
  | extension : String → Ty
  | pointer : Ty → Ty
deriving DecidableEq, Repr

/-- A field of a native attribute struct: name and declared type. -/
abbrev Field := String × Ty

/-! ## Specialization cache (`compile_function`, decorators.py 105-142)

`env.specializations` (class `FunctionCache`) is not part of the sampled
sources; only its caller `compile_function` is.  The cache itself is
modelled from the spec. -/

/-- The `(signature, llvm_func, python_callable)` triplet returned by
`compile_function`; the components are abstract identifiers. -/
structure Artifact where
  func_signature : Nat
  lfunc : Nat
  numba_wrapper_func : Nat
deriving DecidableEq, Repr

/-- A cache key: the callable's identity paired with the resolved
argument types of the request. -/
abbrev CacheKey := Nat × List Ty

/-- Per-environment specialization cache: mapping from
(callable, argument types) to the compiled artifact. -/
abbrev SpecCache := List (CacheKey × Artifact)

/-- Modelled from the spec: `FunctionCache.get_function` (the cache lookup
used by `compile_function`) is a pure lookup of the (callable, signature)
key, returning the cached artifact on a hit and nothing on a miss. -/
def get_function (cache : SpecCache) (func : Nat) (argtypes : List Ty) :
    Option Artifact :=
  (cache.find? (fun e => e.1 = (func, argtypes))).map (·.2)

/-- Modelled from the spec: `FunctionCache.register_specialization` inserts
unconditionally, overwriting (shadowing) any stale entry for the same key. -/
def register_specialization (cache : SpecCache) (func : Nat)
    (argtypes : List Ty) (artifact : Artifact) : SpecCache :=
  ((func, argtypes), artifact) :: cache

/-- Error raised by the compilation pipeline (`pipeline.compile2`). -/
structure CompilationError where
  diagnostic : String
deriving DecidableEq, Repr

/-- `compile_function(env, func, argtypes, ...)` (decorators.py 105-142):
search the cache first; on a hit return the cached triplet; on a miss run
the pipeline (`pipeline.compile2`, passed here as the function `compile2`)
and register the specialization only after it returned successfully.
The result carries the (possibly updated) cache and a flag recording
whether the pipeline was invoked. -/
def compile_function (cache : SpecCache) (func : Nat) (argtypes : List Ty)
    (compile2 : Nat → List Ty → Except CompilationError Artifact) :
    Except CompilationError Artifact × SpecCache × Bool :=
  match get_function cache func argtypes with
  | some result => (.ok result, cache, false)
  | none =>
    match compile2 func argtypes with
    | .error e => (.error e, cache, true)
    | .ok func_env =>
      (.ok func_env, register_specialization cache func argtypes func_env, true)

/-! ## Argument type resolution (`resolve_argtypes`, decorators.py 144-184)

`resolve_argtypes` asserts away keyword arguments, checks the positional
count against `co_argcount`, maps every value through
`typemapper.from_python`, optionally unifies a template signature
(`typesystem.resolve_templates`, an external collaborator passed here as a
function), and finally lets `locals` override the type of any named
argument position. -/

/-- Failures of `resolve_argtypes`: the kwargs assertion, the arity
`TypeError`, an unmappable value, or a template resolution failure. -/
inductive ResolveError where
  | keywordArgsError : ResolveError
  | arityError : Nat → Nat → ResolveError
  | unsupportedValue : ResolveError
  | templateError : String → ResolveError
deriving DecidableEq, Repr

/-- The `minitypes.FunctionType(return_type, tuple(argtypes))` value
returned by `resolve_argtypes`; `return_type` is `None` unless a template
signature supplied one. -/
structure FunctionType where
  return_type : Option Ty
  args : List Ty
deriving DecidableEq, Repr

/-- The `locals` mapping of the translator kwargs: argument name to
explicitly declared type. -/
abbrev LocalsDict := List (String × Ty)

/-- `locals_dict[argname]` lookup (`argname in locals_dict`). -/
def lookupLocal (ld : LocalsDict) (n : String) : Option Ty :=
  (ld.find? (·.1 = n)).map (·.2)

/-- The loop `for i, argname in enumerate(argnames): if argname in
locals_dict: argtypes[i] = locals_dict[argname]`, started at index `i`. -/
def apply_locals_from (ld : LocalsDict) : Nat → List String → List Ty → List Ty
  | _, [], argtypes => argtypes
  | i, argname :: rest, argtypes =>
    match lookupLocal ld argname with
    | some new_type => apply_locals_from ld (i + 1) rest (argtypes.set i new_type)
    | none => apply_locals_from ld (i + 1) rest argtypes

/-- The full locals-override pass over `enumerate(argnames)`. -/
def apply_locals (ld : LocalsDict) (argnames : List String)
    (argtypes : List Ty) : List Ty :=
  apply_locals_from ld 0 argnames argtypes

/-- `resolve_argtypes(numba_func, template_signature, args, kwargs,
translator_kwargs)`.  `V` is the type of runtime argument values and
`from_python` the environment's type mapper (`None` marks an unresolvable
value); `T` is the type of template signatures and `resolve_templates` the
external unifier returning the instantiated return and argument types. -/
def resolve_argtypes {V T : Type}
    (from_python : V → Option Ty)
    (resolve_templates : Option LocalsDict → T → List String → List Ty →
        Except String (Option Ty × List Ty))
    (argcount : Nat) (argnames : List String)
    (locals_dict : Option LocalsDict) (template_signature : Option T)
    (args : List V) (kwargs_nonempty : Bool) :
    Except ResolveError FunctionType :=
  if kwargs_nonempty then .error .keywordArgsError
  else if argcount ≠ args.length then .error (.arityError argcount args.length)
  else
    match args.mapM from_python with
    | none => .error .unsupportedValue
    | some argtypes =>
      match template_signature with
      | none =>
        let argtypes :=
          match locals_dict with
          | some ld => apply_locals ld argnames argtypes
          | none => argtypes
        .ok ⟨none, argtypes⟩
      | some tmpl =>
        match resolve_templates locals_dict tmpl argnames argtypes with
        | .error msg => .error (.templateError msg)
        | .ok (return_type, targs) =>
          let argtypes :=
            match locals_dict with
            | some ld => apply_locals ld argnames targs
            | none => targs
          .ok ⟨return_type, argtypes⟩

/-! ## Entry points and backend dispatch (decorators.py 29-33, 219-331)

The `jit`, `autojit` and `export` entry points classify their first
argument with `isinstance` checks and then dispatch on the
`(target, backend)` pair through the `jit_targets` / `autojit_wrappers`
tables, whose `bytecode` entries are the `_not_implemented` stub.  The
embedding records which code path each combination of arguments selects. -/

/-- The first positional argument of `jit` (`restype`), classified exactly
as the `isinstance` chain in decorators.py 306-319 does. -/
inductive RestypeArg where
  | classArg : String → RestypeArg
  | functionType : Ty → List Ty → RestypeArg
  | strSignature : String → RestypeArg
  | numbaType : Ty → RestypeArg
  | noneArg : RestypeArg
deriving DecidableEq, Repr

/-- The path a call to `jit` takes. -/
inductive JitRoute where
  | extensionClassBuild : String → JitRoute
  | typeErrorBothSyntax : JitRoute
  | notImplementedError : JitRoute
  | astJit : RestypeArg → Option (List Ty) → JitRoute
  | keyError : JitRoute
deriving DecidableEq, Repr

/-- The `jit_targets` table (decorators.py 270-273): `('cpu', 'bytecode')`
maps to `_not_implemented`, `('cpu', 'ast')` to `_jit`; any other key is a
`KeyError`. -/
def jit_targets_dispatch (target backend : String)
    (restype : RestypeArg) (argtypes : Option (List Ty)) : JitRoute :=
  if target = "cpu" ∧ backend = "bytecode" then .notImplementedError
  else if target = "cpu" ∧ backend = "ast" then .astJit restype argtypes
  else .keyError

/-- `jit(restype, argtypes, backend, target, ...)` (decorators.py 280-330):
a class first argument goes straight to `jit_extension_class`; a
constructed `FunctionType` together with a non-`None` `argtypes` raises
`TypeError`, otherwise its components replace `restype`/`argtypes`; a
string signature with no `argtypes` is parsed by `process_signature`
(passed here as a function returning the parsed return and argument
types); everything else falls through to the `jit_targets` dispatch. -/
def jit (restype : RestypeArg) (argtypes : Option (List Ty))
    (backend target : String)
    (process_signature : String → Option Ty × List Ty) : JitRoute :=
  match restype with
  | .classArg cls => .extensionClassBuild cls
  | .functionType return_type args =>
    if argtypes.isSome then .typeErrorBothSyntax
    else jit_targets_dispatch target backend (.numbaType return_type) (some args)
  | .strSignature s =>
    match argtypes with
    | none =>
      let (parsed_restype, parsed_args) := process_signature s
      let restype' := match parsed_restype with
        | some t => RestypeArg.numbaType t
        | none => RestypeArg.noneArg
      jit_targets_dispatch target backend restype' (some parsed_args)
    | some ats => jit_targets_dispatch target backend (.strSignature s) (some ats)
  | r => jit_targets_dispatch target backend r argtypes

/-- The first positional argument of `autojit` (`template_signature`),
classified by the truthiness and `isinstance` tests in
decorators.py 227-234. -/
inductive TemplateArg where
  | noneArg : TemplateArg
  | numbaType : Ty → TemplateArg
  | callableFunc : TemplateArg
  | otherTruthy : TemplateArg
deriving DecidableEq, Repr

/-- The path a call to `autojit` takes. -/
inductive AutojitRoute where
  | astSpecializingWrapperOnFunc : AutojitRoute
  | usageException : AutojitRoute
  | notImplementedStub : AutojitRoute
  | astDispatcher : AutojitRoute
deriving DecidableEq, Repr

/-- `autojit(template_signature, backend, ...)` (decorators.py 219-240): a
truthy non-`Type` template that is callable is treated as the decorated
function itself and re-enters `autojit` with `backend='ast'`; a truthy
non-`Type` non-callable raises a usage exception; otherwise
`backend='bytecode'` returns the `_not_implemented` stub and any other
backend builds the specializing dispatcher. -/
def autojit (template : TemplateArg) (backend : String) : AutojitRoute :=
  match template with
  | .callableFunc => .astSpecializingWrapperOnFunc
  | .otherTruthy => .usageException
  | .noneArg | .numbaType _ =>
    if backend = "bytecode" then .notImplementedStub else .astDispatcher

/-- The path a function decorated through `export` takes. -/
inductive ExportRoute where
  | notImplementedError : ExportRoute
  | exported : String → ExportRoute
deriving DecidableEq, Repr

/-- `_internal_export(env, function_signature, backend, ...)`
(decorators.py 29-62): `backend == 'bytecode'` raises
`NotImplementedError` at decoration time; otherwise the function is
compiled and registered under the signature's name. -/
def _internal_export (backend : String) (signatureName : String) : ExportRoute :=
  if backend = "bytecode" then .notImplementedError
  else .exported signatureName

/-! ## Extension classes (`numba/exttypes/jitclass.py`)

The builder inherits the parent's attribute struct and vtable types,
collects declared and inferred attribute types into the symbol table,
finalizes the attribute struct, and compiles the methods, copying the
parent's native pointers for inherited, non-overridden methods. -/

/-- A method signature as held in `ext_type.methods` (an `ExtMethodType`:
return type, ordered argument types, class-method and static-method
flags). -/
structure ExtMethodType where
  return_type : Ty
  args : List Ty
  is_class : Bool
  is_static : Bool
deriving DecidableEq, Repr

/-- A vtable field type: `signature.pointer()`, unwrapped again through
`.base_type` during inheritance. -/
structure PointerType where
  base_type : ExtMethodType
deriving DecidableEq, Repr

/-- Modelled from the spec: minivect's `is_prefix` check is not under
src/; spec 4.5 defines prefix compatibility as "the first `len(B.fields)`
fields of `D`, in order, have identical names and types to `B.fields`".
`prefixCompat a b` holds when `a` is such a prefix of `b`. -/
def prefixCompat {α : Type} [DecidableEq α] (a b : List α) : Bool :=
  b.take a.length == a

/-- Python dict assignment `d[k] = v` on an insertion-ordered mapping:
replace the value in place when the key exists, append otherwise. -/
def dictInsert (d : List (String × Ty)) (k : String) (v : Ty) :
    List (String × Ty) :=
  if d.any (·.1 = k) then d.map (fun p => if p.1 = k then (k, v) else p)
  else d ++ [(k, v)]

/-- The attribute-related state of an `ExtensionType` while the class is
being processed: the symbol table and the (optional, inherited) attribute
struct. -/
structure ExtTypeAttrs where
  symtab : List (String × Ty)
  attribute_struct : Option (List Field)
deriving DecidableEq, Repr

/-- The attribute half of `inherit_attributes` (jitclass.py 206-210):
`ext_type.attribute_struct = numba.struct(struct_type.fields)` (an ordered
copy of the parent's fields) and one `symtab[field_name] = Variable(...)`
insertion per inherited field, in the parent's field order. -/
def inherit_attributes_attrs (parent_struct_fields : List Field) :
    ExtTypeAttrs :=
  { symtab := parent_struct_fields.foldl (fun st f => dictInsert st f.1 f.2) []
    attribute_struct := some parent_struct_fields }

/-- `process_class_attribute_types` (jitclass.py 224-235) and the
`__init__`-inference pass: every newly seen attribute type enters the
symbol table through a dict assignment, in first-seen order.
`new_attrs` is that insertion sequence. -/
def process_class_attribute_types (ext : ExtTypeAttrs)
    (new_attrs : List (String × Ty)) : ExtTypeAttrs :=
  { ext with
    symtab := new_attrs.foldl (fun st d => dictInsert st d.1 d.2) ext.symtab }

/-- The inherit branch of `_construct_native_attribute_struct`
(jitclass.py 147-156): walk the symbol table, skip every name already in
`fielddict` (seeded with the inherited fields), append each new field and
record its name.  `numba.struct` applied to this ordered field list
preserves the order (the same call is what copies the parent's fields in
`inherit_attributes`, where order preservation is what prefix
compatibility relies on). -/
def collectNewFields (fielddict : List String) :
    List (String × Ty) → List Field
  | [] => []
  | (name, ty) :: rest =>
    if fielddict.contains name then collectNewFields fielddict rest
    else (name, ty) :: collectNewFields (name :: fielddict) rest

/-- `_construct_native_attribute_struct(ext_type)` (jitclass.py 138-156):
with no parent struct, build the struct from the symbol table as keyword
arguments (`numba.struct(**attrs)`, the external unordered constructor
passed here as `struct_from_kwargs`); with an inherited struct, extend the
inherited fields with the new symbol-table fields. -/
def _construct_native_attribute_struct
    (struct_from_kwargs : List (String × Ty) → List Field)
    (ext : ExtTypeAttrs) : List Field :=
  match ext.attribute_struct with
  | none => struct_from_kwargs ext.symtab
  | some inherited =>
    inherited ++ collectNewFields (inherited.map Prod.fst) ext.symtab

/-- A base class as `verify_base_class_compatibility` sees it: its
identity, whether `is_numba_class` holds, and its struct and vtable
types. -/
structure BaseClass where
  name : String
  isNumba : Bool
  struct_fields : List Field
  vtab_fields : List (String × PointerType)
deriving DecidableEq, Repr

/-- The loop of `verify_base_class_compatibility` (jitclass.py 181-193):
`bases` starts as `[cls]`, every compatible numba base is appended, and an
incompatible base raises naming that base and `bases[-1]`.  The second
parameter carries `bases[-1]`. -/
def verify_bases_loop (struct_type : List Field)
    (vtab_type : List (String × PointerType)) :
    List BaseClass → String → Except (String × String) Unit
  | [], _ => .ok ()
  | base :: rest, last =>
    if base.isNumba then
      if prefixCompat base.struct_fields struct_type &&
          prefixCompat base.vtab_fields vtab_type then
        verify_bases_loop struct_type vtab_type rest base.name
      else .error (base.name, last)
    else verify_bases_loop struct_type vtab_type rest last

/-- `verify_base_class_compatibility(cls, struct_type, vtab_type)`
(jitclass.py 181-193): check every numba base of `cls` for prefix
compatibility of both struct and vtable against the candidate layout;
on failure the raised error names the offending base and `bases[-1]`. -/
def verify_base_class_compatibility (cls_name : String)
    (bases : List BaseClass) (struct_type : List Field)
    (vtab_type : List (String × PointerType)) :
    Except (String × String) Unit :=
  verify_bases_loop struct_type vtab_type bases cls_name

/-- The method half of `inherit_attributes` (jitclass.py 212-219): for one
vtable field, unwrap the function signature from the pointer type and, for
a plain (neither class- nor static-) method, replace the first argument
type with the derived extension type. -/
def inherit_method_signature (ext_type : Ty) (method_type : PointerType) :
    ExtMethodType :=
  let func_signature := method_type.base_type
  let args :=
    if !(func_signature.is_class || func_signature.is_static) then
      func_signature.args.set 0 ext_type
    else func_signature.args
  { func_signature with args := args }

/-- The method-inheritance loop of `inherit_attributes`: one
`ext_type.add_method` per parent vtable field, in vtable order. -/
def inherit_methods (ext_type : Ty)
    (vtab_fields : List (String × PointerType)) :
    List (String × ExtMethodType) :=
  vtab_fields.map (fun f => (f.1, inherit_method_signature ext_type f.2))

/-- Failures of `_compile_methods`: the `assert parent_method_pointers is
not None` (and the table being too short), and the
`assert name == method_name` consistency check. -/
inductive MethodCompileError where
  | inheritedMethodMissing : MethodCompileError
  | parentNameMismatch : MethodCompileError
deriving DecidableEq, Repr

/-- `_compile_methods(class_dict, env, ext_type, ...)` (jitclass.py
108-132), as a loop over `enumerate(ext_type.methods)` starting at index
`i`: a method not present in the class's own dict is inherited — the
parent's already-compiled pointer at the same index is copied after the
name consistency assert — while a method in the class dict is compiled
through `pipeline.compile2` (`compile2`, assumed to succeed).  The result
pairs the built `method_pointers` list with the indices at which the
pipeline was invoked. -/
def _compile_methods_from (class_dict : List String)
    (parent_method_pointers : Option (List (String × Nat)))
    (compile2 : String → ExtMethodType → Nat) :
    Nat → List (String × ExtMethodType) →
    Except MethodCompileError (List (String × Nat) × List Nat)
  | _, [] => .ok ([], [])
  | i, (method_name, sig) :: rest =>
    if class_dict.contains method_name then
      let p := compile2 method_name sig
      match _compile_methods_from class_dict parent_method_pointers compile2
          (i + 1) rest with
      | .error e => .error e
      | .ok (ptrs, compiled) => .ok ((method_name, p) :: ptrs, i :: compiled)
    else
      match parent_method_pointers with
      | none => .error .inheritedMethodMissing
      | some parents =>
        match parents.get? i with
        | none => .error .inheritedMethodMissing
        | some (name, p) =>
          if name = method_name then
            match _compile_methods_from class_dict parent_method_pointers
                compile2 (i + 1) rest with
            | .error e => .error e
            | .ok (ptrs, compiled) => .ok ((method_name, p) :: ptrs, compiled)
          else .error .parentNameMismatch

/-- `_compile_methods` over the full method list. -/
def _compile_methods (class_dict : List String)
    (parent_method_pointers : Option (List (String × Nat)))
    (compile2 : String → ExtMethodType → Nat)
    (methods : List (String × ExtMethodType)) :
    Except MethodCompileError (List (String × Nat) × List Nat) :=
  _compile_methods_from class_dict parent_method_pointers compile2 0 methods

end Numba

namespace Numba

theorem get_function_register_self (cache : SpecCache) (func : Nat)
    (argtypes : List Ty) (a : Artifact) :
    get_function (register_specialization cache func argtypes a) func argtypes =
      some a := by
  simp [get_function, register_specialization, List.find?]

/-- C1: once a specialization for a (callable, argument types) pair has been
compiled and cached by `compile_function`, any later request for the same
pair returns the cached triplet unchanged and does not invoke the
compilation pipeline again — regardless of what pipeline is supplied to the
second call. -/
theorem compile_function_idempotent (cache : SpecCache) (func : Nat)
    (argtypes : List Ty)
    (compile2 compile2' : Nat → List Ty → Except CompilationError Artifact)
    (a : Artifact) (cache' : SpecCache) (invoked : Bool)
    (h : compile_function cache func argtypes compile2 = (.ok a, cache', invoked)) :
    compile_function cache' func argtypes compile2' = (.ok a, cache', false) := by
  unfold compile_function at h ⊢
  cases hget : get_function cache func argtypes with
  | some result =>
    rw [hget] at h
    simp only [Prod.mk.injEq] at h
    obtain ⟨ha, hc, -⟩ := h
    subst hc
    rw [hget]
    simp only [Except.ok.injEq] at ha
    subst ha
    rfl
  | none =>
    rw [hget] at h
    cases hcomp : compile2 func argtypes with
    | error e => rw [hcomp] at h; simp at h
    | ok fe =>
      rw [hcomp] at h
      simp only [Prod.mk.injEq] at h
      obtain ⟨ha, hc, -⟩ := h
      simp only [Except.ok.injEq] at ha
      subst ha
      subst hc
      rw [get_function_register_self]

/-- C1 witness: compiling once from an empty cache then requesting again
returns the same artifact without a second pipeline invocation. -/
theorem compile_function_idempotent_witness :
    compile_function
      (register_specialization [] 0 [Ty.f8] ⟨1, 2, 3⟩) 0 [Ty.f8]
      (fun _ _ => .error ⟨"never called"⟩) =
      (.ok ⟨1, 2, 3⟩, register_specialization [] 0 [Ty.f8] ⟨1, 2, 3⟩, false) :=
  compile_function_idempotent [] 0 [Ty.f8]
    (fun _ _ => .ok ⟨1, 2, 3⟩) (fun _ _ => .error ⟨"never called"⟩)
    ⟨1, 2, 3⟩ (register_specialization [] 0 [Ty.f8] ⟨1, 2, 3⟩) true rfl

/-- C2: when the pipeline fails on a cache miss, `compile_function`
propagates the error synchronously and leaves the cache exactly as it was:
registration happens only after a successful compile, so no half-registered
entry is observable. -/
theorem compile_function_error_leaves_cache (cache : SpecCache) (func : Nat)
    (argtypes : List Ty)
    (compile2 : Nat → List Ty → Except CompilationError Artifact)
    (e : CompilationError)
    (hmiss : get_function cache func argtypes = none)
    (hfail : compile2 func argtypes = .error e) :
    compile_function cache func argtypes compile2 = (.error e, cache, true) := by
  unfold compile_function
  rw [hmiss, hfail]

/-- C2 witness: a failing pipeline on an empty cache returns the error and
the untouched empty cache. -/
theorem compile_function_error_leaves_cache_witness :
    compile_function [] 0 [Ty.i4] (fun _ _ => .error ⟨"boom"⟩) =
      (.error ⟨"boom"⟩, [], true) :=
  compile_function_error_leaves_cache [] 0 [Ty.i4]
    (fun _ _ => .error ⟨"boom"⟩) ⟨"boom"⟩ rfl rfl

/-- C5: the arity check fires before any per-argument type resolution:
whenever the supplied positional count differs from `co_argcount`,
`resolve_argtypes` fails with the arity error for every type mapper,
including one that can resolve no value at all. -/
theorem resolve_argtypes_arity_before_resolution {V T : Type}
    (from_python : V → Option Ty)
    (resolve_templates : Option LocalsDict → T → List String → List Ty →
        Except String (Option Ty × List Ty))
    (argcount : Nat) (argnames : List String)
    (locals_dict : Option LocalsDict) (template_signature : Option T)
    (args : List V)
    (h : argcount ≠ args.length) :
    resolve_argtypes from_python resolve_templates argcount argnames
        locals_dict template_signature args false =
      .error (.arityError argcount args.length) := by
  unfold resolve_argtypes
  simp [h]

/-- C5 witness: a two-parameter callable called with one argument fails
with the arity error although the type mapper resolves nothing. -/
theorem resolve_argtypes_arity_before_resolution_witness :
    resolve_argtypes (V := Unit) (T := Unit) (fun _ => none)
        (fun _ _ _ _ => .error "no template") 2 ["a", "b"] none none [()] false =
      .error (.arityError 2 1) :=
  resolve_argtypes_arity_before_resolution (fun _ => none)
    (fun _ _ _ _ => .error "no template") 2 ["a", "b"] none none [()]
    (by decide)

theorem apply_locals_from_get?_lt (ld : LocalsDict) :
    ∀ (ns : List String) (s k : Nat) (ts : List Ty), k < s →
      (apply_locals_from ld s ns ts).get? k = ts.get? k := by
  intro ns
  induction ns with
  | nil => intro s k ts _; rfl
  | cons n rest ih =>
    intro s k ts hk
    unfold apply_locals_from
    cases lookupLocal ld n with
    | some t =>
      rw [ih (s + 1) k _ (Nat.lt_succ_of_lt hk)]
      exact List.get?_set_ne t ts (Nat.ne_of_gt hk)
    | none => exact ih (s + 1) k ts (Nat.lt_succ_of_lt hk)

theorem apply_locals_from_get? (ld : LocalsDict) :
    ∀ (ns : List String) (j s : Nat) (ts : List Ty) (name : String),
      ns.get? j = some name → s + j < ts.length →
      (apply_locals_from ld s ns ts).get? (s + j) =
        (match lookupLocal ld name with
         | some t => some t
         | none => ts.get? (s + j)) := by
  intro ns
  induction ns with
  | nil => intro j s ts name hn _; simp at hn
  | cons n rest ih =>
    intro j s ts name hn hts
    cases j with
    | zero =>
      simp only [List.get?] at hn
      cases hn
      unfold apply_locals_from
      cases hl : lookupLocal ld n with
      | some t =>
        rw [apply_locals_from_get?_lt ld rest (s + 1) (s + 0) _ (by omega)]
        simp only [Nat.add_zero] at hts ⊢
        rw [List.get?_set_eq_of_lt t hts]
      | none =>
        rw [apply_locals_from_get?_lt ld rest (s + 1) (s + 0) ts (by omega)]
    | succ j' =>
      simp only [List.get?] at hn
      unfold apply_locals_from
      cases hl : lookupLocal ld n with
      | some t =>
        have hlen : s + 1 + j' < (ts.set s t).length := by
          rw [List.length_set]; omega
        have hrec := ih j' (s + 1) (ts.set s t) name hn hlen
        rw [show s + (j' + 1) = s + 1 + j' by omega, hrec]
        cases lookupLocal ld name with
        | some t2 => rfl
        | none => exact List.get?_set_ne t ts (by omega)
      | none =>
        have hrec := ih j' (s + 1) ts name hn (by omega)
        rw [show s + (j' + 1) = s + 1 + j' by omega, hrec]

/-- C7: when a template signature is resolved, a `locals` entry for a named
argument overrides the unified type at that argument's position, and every
position not named in `locals` keeps its unified type. -/
theorem resolve_argtypes_locals_override {V T : Type}
    (from_python : V → Option Ty)
    (resolve_templates : Option LocalsDict → T → List String → List Ty →
        Except String (Option Ty × List Ty))
    (argcount : Nat) (argnames : List String) (ld : LocalsDict) (tmpl : T)
    (args : List V) (unified : List Ty) (return_type : Option Ty)
    (argtypes : List Ty)
    (hcount : argcount = args.length)
    (hmap : args.mapM from_python = some argtypes)
    (hunify : resolve_templates (some ld) tmpl argnames argtypes =
        .ok (return_type, unified))
    (i : Nat) (name : String)
    (hi : argnames.get? i = some name) (hiu : i < unified.length) :
    resolve_argtypes from_python resolve_templates argcount argnames
        (some ld) (some tmpl) args false =
      .ok ⟨return_type, apply_locals ld argnames unified⟩ ∧
    (apply_locals ld argnames unified).get? i =
      (match lookupLocal ld name with
       | some t => some t
       | none => unified.get? i) := by
  constructor
  · unfold resolve_argtypes
    rw [if_neg (by simp), if_neg (by simp [hcount]), hmap]
    dsimp only
    rw [hunify]
  · have := apply_locals_from_get? ld argnames i 0 unified name hi
      (by simpa using hiu)
    simpa [apply_locals] using this

/-- C7 witness: with template-unified argument types `[f8, f8]` and
`locals = \x7b b: i4 \x7d`, position `b` resolves to `i4` while position `a`
keeps the unified `f8`. -/
theorem resolve_argtypes_locals_override_witness :
    (resolve_argtypes (V := Unit) (T := Unit)
        (fun _ => some Ty.obj)
        (fun _ _ _ _ => .ok (some Ty.f8, [Ty.f8, Ty.f8]))
        2 ["a", "b"] (some [("b", Ty.i4)]) (some ()) [(), ()] false =
      .ok ⟨some Ty.f8, apply_locals [("b", Ty.i4)] ["a", "b"] [Ty.f8, Ty.f8]⟩) ∧
    (apply_locals [("b", Ty.i4)] ["a", "b"] [Ty.f8, Ty.f8]).get? 1 =
      some Ty.i4 := by
  have h := resolve_argtypes_locals_override (V := Unit) (T := Unit)
    (fun _ => some Ty.obj) (fun _ _ _ _ => .ok (some Ty.f8, [Ty.f8, Ty.f8]))
    2 ["a", "b"] [("b", Ty.i4)] () [(), ()] [Ty.f8, Ty.f8] (some Ty.f8)
    [Ty.obj, Ty.obj] rfl rfl rfl 1 "b" rfl (by decide)
  exact ⟨h.1, h.2.trans rfl⟩

/-- C8 counterexample: `jit` applied to a class with `backend='bytecode'`
does not fail at all — the class branch precedes the backend dispatch, so
the call routes to extension-class building (which compiles every method),
a route distinct from the `NotImplementedError` stub. -/
theorem jit_bytecode_class_bypasses_stub :
    jit (.classArg "C") none "bytecode" "cpu" (fun _ => (none, [])) =
      .extensionClassBuild "C" :=
  rfl

/-- C8 (amended): selecting the bytecode backend fails with
`NotImplementedError`-class behavior on every path that reaches the
backend dispatch — `export` at decoration time, `autojit` with a `None` or
`Type` template, and `jit` with target `'cpu'` whenever its first argument
is not a class — but `jit` applied to a class ignores the backend selector
and builds the extension class, and `autojit` applied directly to a
callable re-enters with the ast backend. -/
theorem bytecode_backend_is_failure_stub :
    (∀ name, _internal_export "bytecode" name = .notImplementedError) ∧
    (autojit .noneArg "bytecode" = .notImplementedStub) ∧
    (∀ t, autojit (.numbaType t) "bytecode" = .notImplementedStub) ∧
    (autojit .callableFunc "bytecode" = .astSpecializingWrapperOnFunc) ∧
    (∀ rt args ps, jit (.functionType rt args) none "bytecode" "cpu" ps =
        .notImplementedError) ∧
    (∀ rt args ats ps, jit (.functionType rt args) (some ats) "bytecode" "cpu" ps =
        .typeErrorBothSyntax) ∧
    (∀ s ats ps, jit (.strSignature s) ats "bytecode" "cpu" ps =
        .notImplementedError) ∧
    (∀ t ats ps, jit (.numbaType t) ats "bytecode" "cpu" ps =
        .notImplementedError) ∧
    (∀ ats ps, jit .noneArg ats "bytecode" "cpu" ps = .notImplementedError) ∧
    (∀ cls ats ps, jit (.classArg cls) ats "bytecode" "cpu" ps =
        .extensionClassBuild cls) := by
  refine ⟨fun _ => rfl, rfl, fun _ => rfl, rfl, fun _ _ _ => rfl,
    fun _ _ _ _ => rfl, fun s ats ps => ?_, fun _ _ _ => rfl,
    fun _ _ => rfl, fun _ _ _ => rfl⟩
  cases ats with
  | none =>
    unfold jit
    cases hps : ps s with
    | mk rt args => cases rt <;> rfl
  | some a => rfl

theorem dictInsert_fresh (st : List (String × Ty)) (k : String) (v : Ty)
    (h : k ∉ st.map Prod.fst) : dictInsert st k v = st ++ [(k, v)] := by
  unfold dictInsert
  rw [if_neg]
  simp only [List.any_eq_true, decide_eq_true_eq, not_exists, not_and]
  intro p hp
  exact fun he => h (he ▸ List.mem_map_of_mem Prod.fst hp)

theorem foldl_dictInsert_fresh :
    ∀ (L st : List (String × Ty)),
      (∀ k ∈ L.map Prod.fst, k ∉ st.map Prod.fst) →
      (L.map Prod.fst).Nodup →
      L.foldl (fun st d => dictInsert st d.1 d.2) st = st ++ L := by
  intro L
  induction L with
  | nil => intro st _ _; simp
  | cons d rest ih =>
    intro st hfresh hnodup
    simp only [List.map_cons, List.nodup_cons] at hnodup
    simp only [List.foldl_cons]
    rw [dictInsert_fresh st d.1 d.2 (hfresh d.1 (by simp))]
    rw [ih (st ++ [(d.1, d.2)]) ?_ hnodup.2]
    · simp
    · intro k hk
      have hk' : k ∈ (d :: rest).map Prod.fst := by simp [hk]
      simp only [List.map_append, List.mem_append, List.map_cons,
        List.map_nil, List.mem_singleton, not_or]
      exact ⟨hfresh k hk', fun he => hnodup.1 (he ▸ hk)⟩

theorem collectNewFields_skip_all :
    ∀ (xs ys : List (String × Ty)) (fd : List String),
      (∀ x ∈ xs, x.1 ∈ fd) →
      collectNewFields fd (xs ++ ys) = collectNewFields fd ys := by
  intro xs
  induction xs with
  | nil => intro ys fd _; rfl
  | cons x rest ih =>
    intro ys fd hmem
    obtain ⟨n, t⟩ := x
    rw [List.cons_append]
    simp only [collectNewFields]
    rw [if_pos (by simpa using hmem (n, t) (List.mem_cons_self _ _))]
    exact ih ys fd (fun y hy => hmem y (List.mem_cons_of_mem _ hy))

theorem collectNewFields_all_fresh :
    ∀ (ys : List (String × Ty)) (fd : List String),
      (∀ y ∈ ys, y.1 ∉ fd) → (ys.map Prod.fst).Nodup →
      collectNewFields fd ys = ys := by
  intro ys
  induction ys with
  | nil => intro fd _ _; rfl
  | cons y rest ih =>
    intro fd hfresh hnodup
    obtain ⟨n, t⟩ := y
    unfold collectNewFields
    rw [if_neg]
    · rw [ih (n :: fd) ?_ ?_]
      · intro z hz
        simp only [List.mem_cons, not_or]
        constructor
        · simp only [List.map_cons, List.nodup_cons] at hnodup
          exact fun he => hnodup.1 (he ▸ List.mem_map_of_mem Prod.fst hz)
        · exact hfresh z (List.mem_cons_of_mem _ hz)
      · simp only [List.map_cons, List.nodup_cons] at hnodup
        exact hnodup.2
    · simpa using hfresh (n, t) (List.mem_cons_self _ _)

/-- C3: for a class with a native-backed parent, the finalized attribute
struct is the parent's fields, in the parent's order, followed by the
newly declared attributes in the order they were first seen. -/
theorem construct_struct_inherited_first (P D : List Field)
    (struct_from_kwargs : List (String × Ty) → List Field)
    (hP : (P.map Prod.fst).Nodup) (hD : (D.map Prod.fst).Nodup)
    (hdisj : ∀ k ∈ D.map Prod.fst, k ∉ P.map Prod.fst) :
    _construct_native_attribute_struct struct_from_kwargs
      (process_class_attribute_types (inherit_attributes_attrs P) D) =
      P ++ D := by
  have hsym0 :
      (inherit_attributes_attrs P).symtab = P := by
    unfold inherit_attributes_attrs
    simpa using foldl_dictInsert_fresh P [] (by simp) hP
  have hsym1 :
      (process_class_attribute_types (inherit_attributes_attrs P) D).symtab =
        P ++ D := by
    unfold process_class_attribute_types
    rw [hsym0]
    exact foldl_dictInsert_fresh D P hdisj hD
  have hstruct :
      (process_class_attribute_types
          (inherit_attributes_attrs P) D).attribute_struct = some P := rfl
  unfold _construct_native_attribute_struct
  rw [hstruct, hsym1]
  show P ++ collectNewFields (P.map Prod.fst) (P ++ D) = P ++ D
  rw [collectNewFields_skip_all P D (P.map Prod.fst)
      (fun x hx => List.mem_map_of_mem Prod.fst hx)]
  rw [collectNewFields_all_fresh D (P.map Prod.fst) ?_ hD]
  intro y hy
  exact hdisj y.1 (List.mem_map_of_mem Prod.fst hy)

/-- C3 witness: `Base` declares `x: f8` and `Child(Base)` adds `y: i4`;
`Child`'s attribute struct is `[x: f8, y: i4]` in that order. -/
theorem construct_struct_inherited_first_witness :
    _construct_native_attribute_struct (fun s => s)
      (process_class_attribute_types
        (inherit_attributes_attrs [("x", Ty.f8)]) [("y", Ty.i4)]) =
      [("x", Ty.f8), ("y", Ty.i4)] :=
  construct_struct_inherited_first [("x", Ty.f8)] [("y", Ty.i4)]
    (fun s => s) (by decide) (by decide) (by decide)

theorem verify_bases_loop_ok_iff (st : List Field)
    (vt : List (String × PointerType)) :
    ∀ (l : List BaseClass) (last : String),
      verify_bases_loop st vt l last = .ok () ↔
        ∀ b ∈ l, b.isNumba = true →
          prefixCompat b.struct_fields st = true ∧
          prefixCompat b.vtab_fields vt = true := by
  intro l
  induction l with
  | nil => intro last; simp [verify_bases_loop]
  | cons b rest ih =>
    intro last
    unfold verify_bases_loop
    by_cases hb : b.isNumba = true
    · rw [if_pos hb]
      by_cases hc : (prefixCompat b.struct_fields st &&
          prefixCompat b.vtab_fields vt) = true
      · rw [if_pos hc, ih b.name]
        have hcs := Bool.and_eq_true_iff.mp hc
        constructor
        · intro h b' hb' hnum
          rcases List.mem_cons.mp hb' with rfl | hmem
          · exact hcs
          · exact h b' hmem hnum
        · intro h b' hb' hnum
          exact h b' (List.mem_cons_of_mem _ hb') hnum
      · rw [if_neg hc]
        constructor
        · intro h; exact absurd h (by simp)
        · intro h
          have := h b (List.mem_cons_self _ _) hb
          rw [Bool.and_eq_true_iff] at hc
          exact absurd this hc
    · rw [if_neg hb, ih last]
      constructor
      · intro h b' hb' hnum
        rcases List.mem_cons.mp hb' with rfl | hmem
        · exact absurd hnum hb
        · exact h b' hmem hnum
      · intro h b' hb' hnum
        exact h b' (List.mem_cons_of_mem _ hb') hnum

theorem verify_bases_loop_error_precise (st : List Field)
    (vt : List (String × PointerType)) :
    ∀ (l : List BaseClass) (last n1 n2 : String),
      verify_bases_loop st vt l last = .error (n1, n2) →
      ∃ k b, l.get? k = some b ∧ b.isNumba = true ∧ b.name = n1 ∧
        ¬(prefixCompat b.struct_fields st = true ∧
          prefixCompat b.vtab_fields vt = true) ∧
        (∀ j bj, j < k → l.get? j = some bj → bj.isNumba = true →
          prefixCompat bj.struct_fields st = true ∧
          prefixCompat bj.vtab_fields vt = true) ∧
        ((n2 = last ∧
            ∀ j bj, j < k → l.get? j = some bj → bj.isNumba = false) ∨
          (∃ j b2, j < k ∧ l.get? j = some b2 ∧ b2.isNumba = true ∧
            b2.name = n2 ∧
            ∀ j' b', j < j' → j' < k → l.get? j' = some b' →
              b'.isNumba = false)) := by
  intro l
  induction l with
  | nil => intro last n1 n2 h; exact absurd h (by simp [verify_bases_loop])
  | cons b rest ih =>
    intro last n1 n2 h
    unfold verify_bases_loop at h
    by_cases hb : b.isNumba = true
    · rw [if_pos hb] at h
      by_cases hc : (prefixCompat b.struct_fields st &&
          prefixCompat b.vtab_fields vt) = true
      · rw [if_pos hc] at h
        have hcs := Bool.and_eq_true_iff.mp hc
        obtain ⟨k, bk, hget, hnum, hname, hfail, hpre, hsecond⟩ :=
          ih b.name n1 n2 h
        refine ⟨k + 1, bk, by simpa using hget, hnum, hname, hfail, ?_, ?_⟩
        · intro j bj hj hgetj hnumj
          cases j with
          | zero =>
            simp only [List.get?] at hgetj
            cases hgetj
            exact hcs
          | succ j' =>
            simp only [List.get?] at hgetj
            exact hpre j' bj (by omega) hgetj hnumj
        · rcases hsecond with ⟨heq, hprev⟩ |
            ⟨j, b2, hj, hgetj, hnum2, hname2, hgap⟩
          · refine Or.inr ⟨0, b, by omega, rfl, hb, heq.symm, ?_⟩
            intro j' b' hj'0 hj'k hgetj'
            cases j' with
            | zero => omega
            | succ j'' =>
              simp only [List.get?] at hgetj'
              exact hprev j'' b' (by omega) hgetj'
          · refine Or.inr ⟨j + 1, b2, by omega, by simpa using hgetj,
              hnum2, hname2, ?_⟩
            intro j' b' hjj' hj'k hgetj'
            cases j' with
            | zero => omega
            | succ j'' =>
              simp only [List.get?] at hgetj'
              exact hgap j'' b' (by omega) (by omega) hgetj'
      · rw [if_neg hc] at h
        simp only [Except.error.injEq, Prod.mk.injEq] at h
        obtain ⟨h1, h2⟩ := h
        refine ⟨0, b, rfl, hb, h1, ?_, ?_, Or.inl ⟨h2.symm, ?_⟩⟩
        · rw [Bool.and_eq_true_iff] at hc
          exact hc
        · intro j bj hj _ _
          omega
        · intro j bj hj _
          omega
    · rw [if_neg hb] at h
      have hbf : b.isNumba = false := by simpa using hb
      obtain ⟨k, bk, hget, hnum, hname, hfail, hpre, hsecond⟩ :=
        ih last n1 n2 h
      refine ⟨k + 1, bk, by simpa using hget, hnum, hname, hfail, ?_, ?_⟩
      · intro j bj hj hgetj hnumj
        cases j with
        | zero =>
          simp only [List.get?] at hgetj
          cases hgetj
          exact absurd hnumj (by simp [hbf])
        | succ j' =>
          simp only [List.get?] at hgetj
          exact hpre j' bj (by omega) hgetj hnumj
      · rcases hsecond with ⟨heq, hprev⟩ |
          ⟨j, b2, hj, hgetj, hnum2, hname2, hgap⟩
        · refine Or.inl ⟨heq, ?_⟩
          intro j bj hj hgetj
          cases j with
          | zero =>
            simp only [List.get?] at hgetj
            cases hgetj
            exact hbf
          | succ j' =>
            simp only [List.get?] at hgetj
            exact hprev j' bj (by omega) hgetj
        · refine Or.inr ⟨j + 1, b2, by omega, by simpa using hgetj,
            hnum2, hname2, ?_⟩
          intro j' b' hjj' hj'k hgetj'
          cases j' with
          | zero => omega
          | succ j'' =>
            simp only [List.get?] at hgetj'
            exact hgap j'' b' (by omega) (by omega) hgetj'

/-- C4 counterexample: class `C` with native bases `B1`, `B2`, `B3`, the
candidate layout being `B1`'s struct (as at the call site, where
`cls.__numba_struct_type` resolves to the first native base's struct).
`B3` fails the prefix check, and the raised error names `B3` and `B2` —
but `B2`'s layout is a prefix of `B3`'s, so the named pair is mutually
compatible; the base actually in conflict with `B3` is `B1` (neither is a
prefix of the other), which the message does not name. -/
theorem verify_error_names_nonconflicting_pair :
    (verify_base_class_compatibility "C"
      [⟨"B1", true, [("x", Ty.f8), ("y", Ty.i4)], []⟩,
       ⟨"B2", true, [("x", Ty.f8)], []⟩,
       ⟨"B3", true, [("x", Ty.f8), ("z", Ty.f4)], []⟩]
      [("x", Ty.f8), ("y", Ty.i4)] [] = .error ("B3", "B2")) ∧
    prefixCompat [("x", Ty.f8)] [("x", Ty.f8), ("z", Ty.f4)] = true ∧
    prefixCompat [("x", Ty.f8), ("z", Ty.f4)] [("x", Ty.f8), ("y", Ty.i4)]
      = false ∧
    prefixCompat [("x", Ty.f8), ("y", Ty.i4)] [("x", Ty.f8), ("z", Ty.f4)]
      = false := by
  refine ⟨rfl, rfl, rfl, rfl⟩

/-- C4 (amended): the verifier succeeds exactly when every native base's
layout is a prefix of the candidate layout; whenever some native base is
not, it fails with the layout error, and the error names the *first*
failing native base (every earlier native base passes both prefix checks)
paired with the *most recently verified* native base — the native base at
the greatest index before the failing one, necessarily compatible — or the
class itself when no native base precedes.  For exactly two native bases
this is the conflicting pair, but in general the named pair need not be
mutually incompatible. -/
theorem verify_base_class_compatibility_spec (cls_name : String)
    (bases : List BaseClass) (st : List Field)
    (vt : List (String × PointerType)) :
    (verify_base_class_compatibility cls_name bases st vt = .ok () ↔
      ∀ b ∈ bases, b.isNumba = true →
        prefixCompat b.struct_fields st = true ∧
        prefixCompat b.vtab_fields vt = true) ∧
    (∀ n1 n2,
      verify_base_class_compatibility cls_name bases st vt = .error (n1, n2) →
      ∃ k b, bases.get? k = some b ∧ b.isNumba = true ∧ b.name = n1 ∧
        ¬(prefixCompat b.struct_fields st = true ∧
          prefixCompat b.vtab_fields vt = true) ∧
        (∀ j bj, j < k → bases.get? j = some bj → bj.isNumba = true →
          prefixCompat bj.struct_fields st = true ∧
          prefixCompat bj.vtab_fields vt = true) ∧
        ((n2 = cls_name ∧
            ∀ j bj, j < k → bases.get? j = some bj → bj.isNumba = false) ∨
          (∃ j b2, j < k ∧ bases.get? j = some b2 ∧ b2.isNumba = true ∧
            b2.name = n2 ∧
            ∀ j' b', j < j' → j' < k → bases.get? j' = some b' →
              b'.isNumba = false))) ∧
    ((¬ ∀ b ∈ bases, b.isNumba = true →
        prefixCompat b.struct_fields st = true ∧
        prefixCompat b.vtab_fields vt = true) →
      ∃ n1 n2, verify_base_class_compatibility cls_name bases st vt =
        .error (n1, n2)) := by
  have hok := verify_bases_loop_ok_iff st vt bases cls_name
  refine ⟨hok, ?_, ?_⟩
  · intro n1 n2 h
    exact verify_bases_loop_error_precise st vt bases cls_name n1 n2 h
  · intro hnot
    cases hres : verify_base_class_compatibility cls_name bases st vt with
    | ok u =>
      cases u
      exact absurd (hok.mp hres) hnot
    | error p =>
      obtain ⟨n1, n2⟩ := p
      exact ⟨n1, n2, rfl⟩

/-- C4 witness: a two-base hierarchy where both native bases are prefixes
of the candidate layout passes the verifier. -/
theorem verify_base_class_compatibility_spec_witness :
    verify_base_class_compatibility "C"
      [⟨"A", true, [("x", Ty.f8)], []⟩,
       ⟨"B", true, [("x", Ty.f8), ("y", Ty.i4)], []⟩]
      [("x", Ty.f8), ("y", Ty.i4)] [] = .ok () :=
  (verify_base_class_compatibility_spec "C"
      [⟨"A", true, [("x", Ty.f8)], []⟩,
       ⟨"B", true, [("x", Ty.f8), ("y", Ty.i4)], []⟩]
      [("x", Ty.f8), ("y", Ty.i4)] []).1.mpr (by decide)

theorem compile_methods_from_step (class_dict : List String)
    (parent_method_pointers : Option (List (String × Nat)))
    (compile2 : String → ExtMethodType → Nat)
    (i : Nat) (method_name : String) (sig : ExtMethodType)
    (rest : List (String × ExtMethodType)) :
    _compile_methods_from class_dict parent_method_pointers compile2 i
        ((method_name, sig) :: rest) =
      (if class_dict.contains method_name then
        let p := compile2 method_name sig
        match _compile_methods_from class_dict parent_method_pointers compile2
            (i + 1) rest with
        | .error e => .error e
        | .ok (ptrs, compiled) => .ok ((method_name, p) :: ptrs, i :: compiled)
      else
        match parent_method_pointers with
        | none => .error .inheritedMethodMissing
        | some parents =>
          match parents.get? i with
          | none => .error .inheritedMethodMissing
          | some (name, p) =>
            if name = method_name then
              match _compile_methods_from class_dict parent_method_pointers
                  compile2 (i + 1) rest with
              | .error e => .error e
              | .ok (ptrs, compiled) => .ok ((method_name, p) :: ptrs, compiled)
            else .error .parentNameMismatch) := rfl

theorem compile_methods_from_compiled_ge (class_dict : List String)
    (parents_opt : Option (List (String × Nat)))
    (compile2 : String → ExtMethodType → Nat) :
    ∀ (methods : List (String × ExtMethodType)) (s : Nat)
      (ptrs : List (String × Nat)) (compiled : List Nat),
      _compile_methods_from class_dict parents_opt compile2 s methods =
        .ok (ptrs, compiled) →
      ∀ i ∈ compiled, s ≤ i := by
  intro methods
  induction methods with
  | nil =>
    intro s ptrs compiled h i hi
    simp only [_compile_methods_from, Except.ok.injEq, Prod.mk.injEq] at h
    rw [← h.2] at hi
    simp at hi
  | cons m rest ih =>
    intro s ptrs compiled h i hi
    obtain ⟨mname, msig⟩ := m
    rw [compile_methods_from_step] at h
    split at h
    · split at h
      · exact absurd h (by simp)
      · next ptrs' compiled' hrec =>
        simp only [Except.ok.injEq, Prod.mk.injEq] at h
        rw [← h.2] at hi
        rcases List.mem_cons.mp hi with rfl | hmem
        · exact Nat.le_refl _
        · exact Nat.le_of_succ_le (ih (s + 1) ptrs' compiled' hrec i hmem)
    · split at h
      · exact absurd h (by simp)
      · next parents =>
        split at h
        · exact absurd h (by simp)
        · next pname p hget =>
          split at h
          · split at h
            · exact absurd h (by simp)
            · next ptrs' compiled' hrec =>
              simp only [Except.ok.injEq, Prod.mk.injEq] at h
              rw [← h.2] at hi
              exact Nat.le_of_succ_le (ih (s + 1) ptrs' compiled' hrec i hi)
          · exact absurd h (by simp)

theorem compile_methods_from_inherited (class_dict : List String)
    (parents_opt : Option (List (String × Nat)))
    (compile2 : String → ExtMethodType → Nat) :
    ∀ (methods : List (String × ExtMethodType)) (s : Nat)
      (ptrs : List (String × Nat)) (compiled : List Nat),
      _compile_methods_from class_dict parents_opt compile2 s methods =
        .ok (ptrs, compiled) →
      ∀ j name sig, methods.get? j = some (name, sig) →
        class_dict.contains name = false →
        ∃ parents p, parents_opt = some parents ∧
          parents.get? (s + j) = some (name, p) ∧
          ptrs.get? j = some (name, p) ∧
          (s + j) ∉ compiled := by
  intro methods
  induction methods with
  | nil =>
    intro s ptrs compiled _ j name sig hget _
    simp at hget
  | cons m rest ih =>
    intro s ptrs compiled h j name sig hget hfresh
    obtain ⟨mname, msig⟩ := m
    rw [compile_methods_from_step] at h
    split at h
    · next hcd =>
      split at h
      · exact absurd h (by simp)
      · next ptrs' compiled' hrec =>
        simp only [Except.ok.injEq, Prod.mk.injEq] at h
        obtain ⟨hp, hc⟩ := h
        cases j with
        | zero =>
          simp only [List.get?] at hget
          cases hget
          rw [hcd] at hfresh
          exact absurd hfresh (by simp)
        | succ j' =>
          simp only [List.get?] at hget
          obtain ⟨parents, p, hpar, hpget, hptr, hnot⟩ :=
            ih (s + 1) ptrs' compiled' hrec j' name sig hget hfresh
          refine ⟨parents, p, hpar, ?_, ?_, ?_⟩
          · rw [show s + (j' + 1) = s + 1 + j' by omega]; exact hpget
          · rw [← hp]; exact hptr
          · rw [← hc]
            intro hmem
            rcases List.mem_cons.mp hmem with heq | hmem'
            · omega
            · rw [show s + (j' + 1) = s + 1 + j' by omega] at hmem'
              exact hnot hmem'
    · next hcd =>
      split at h
      · exact absurd h (by simp)
      · next parents =>
        split at h
        · exact absurd h (by simp)
        · next pname p hget2 =>
          split at h
          · next hname =>
            split at h
            · exact absurd h (by simp)
            · next ptrs' compiled' hrec =>
              simp only [Except.ok.injEq, Prod.mk.injEq] at h
              obtain ⟨hp, hc⟩ := h
              cases j with
              | zero =>
                simp only [List.get?] at hget
                cases hget
                refine ⟨parents, p, rfl, ?_, ?_, ?_⟩
                · rw [Nat.add_zero, hget2, hname]
                · rw [← hp]; rfl
                · rw [← hc, Nat.add_zero]
                  intro hmem
                  have := compile_methods_from_compiled_ge class_dict
                    (some parents) compile2 rest (s + 1) ptrs' compiled'
                    hrec s hmem
                  omega
              | succ j' =>
                simp only [List.get?] at hget
                obtain ⟨parents', p', hpar, hpget, hptr, hnot⟩ :=
                  ih (s + 1) ptrs' compiled' hrec j' name sig hget hfresh
                obtain ⟨⟩ : parents' = parents := by
                  injection hpar with he; exact he.symm ▸ rfl
                refine ⟨parents, p', rfl, ?_, ?_, ?_⟩
                · rw [show s + (j' + 1) = s + 1 + j' by omega]
                  exact hpget
                · rw [← hp]; exact hptr
                · rw [← hc, show s + (j' + 1) = s + 1 + j' by omega]
                  exact hnot
          · exact absurd h (by simp)

theorem compile_methods_missing_parent (class_dict : List String)
    (compile2 : String → ExtMethodType → Nat) :
    ∀ (methods : List (String × ExtMethodType)) (s : Nat),
      (∃ m ∈ methods, class_dict.contains m.1 = false) →
      _compile_methods_from class_dict none compile2 s methods =
        .error .inheritedMethodMissing := by
  intro methods
  induction methods with
  | nil => intro s h; simp at h
  | cons m rest ih =>
    intro s h
    obtain ⟨mname, msig⟩ := m
    rw [compile_methods_from_step]
    by_cases hcd : class_dict.contains mname = true
    · rw [if_pos hcd]
      obtain ⟨m', hm', hfresh⟩ := h
      rcases List.mem_cons.mp hm' with rfl | hmem
      · exact absurd (by simpa using hcd) (by simpa using hfresh)
      · rw [ih (s + 1) ⟨m', hmem, hfresh⟩]
    · rw [if_neg hcd]

/-- C6: in `_compile_methods`, every method of the method list absent from
the class's own dict is inherited: the parent's already-compiled pointer
at the same index is copied into the method-pointer table and the
compilation pipeline is not invoked at that index; and when the parent
pointer table is absent while such an inherited method exists, the build
fails with the inherited-method-missing error. -/
theorem compile_methods_inherited_no_recompile (class_dict : List String)
    (compile2 : String → ExtMethodType → Nat)
    (methods : List (String × ExtMethodType)) :
    (∀ (parents_opt : Option (List (String × Nat)))
      (ptrs : List (String × Nat)) (compiled : List Nat)
      (j : Nat) (name : String) (sig : ExtMethodType),
      _compile_methods class_dict parents_opt compile2 methods =
        .ok (ptrs, compiled) →
      methods.get? j = some (name, sig) →
      class_dict.contains name = false →
      ∃ parents p, parents_opt = some parents ∧
        parents.get? j = some (name, p) ∧
        ptrs.get? j = some (name, p) ∧
        j ∉ compiled) ∧
    ((∃ m ∈ methods, class_dict.contains m.1 = false) →
      _compile_methods class_dict none compile2 methods =
        .error .inheritedMethodMissing) := by
  constructor
  · intro parents_opt ptrs compiled j name sig h hget hfresh
    have := compile_methods_from_inherited class_dict parents_opt compile2
      methods 0 ptrs compiled h j name sig hget hfresh
    simpa using this
  · intro h
    exact compile_methods_missing_parent class_dict compile2 methods 0 h

/-- C6 witness: with methods `f` (inherited) and `g` (own), the parent's
pointer for `f` is copied at index 0, the pipeline runs only for `g`, and
the same hierarchy with no parent pointer table fails. -/
theorem compile_methods_inherited_no_recompile_witness :
    (∃ parents p,
      (some [("f", 7), ("g", 8)] : Option (List (String × Nat))) =
        some parents ∧
      parents.get? 0 = some ("f", p) ∧
      ([("f", 7), ("g", 99)] : List (String × Nat)).get? 0 = some ("f", p) ∧
      0 ∉ [1]) ∧
    (_compile_methods ["g"] none (fun _ _ => 99)
      [("f", ⟨Ty.f8, [Ty.obj], false, false⟩),
       ("g", ⟨Ty.i4, [Ty.obj], false, false⟩)] =
      .error .inheritedMethodMissing) := by
  have h := compile_methods_inherited_no_recompile ["g"] (fun _ _ => 99)
    [("f", ⟨Ty.f8, [Ty.obj], false, false⟩),
     ("g", ⟨Ty.i4, [Ty.obj], false, false⟩)]
  exact ⟨h.1 (some [("f", 7), ("g", 8)]) [("f", 7), ("g", 99)] [1] 0 "f"
      ⟨Ty.f8, [Ty.obj], false, false⟩ rfl rfl rfl,
    h.2 ⟨("f", ⟨Ty.f8, [Ty.obj], false, false⟩), by decide, rfl⟩⟩

theorem inherit_methods_get? (ext_type : Ty)
    (vtab_fields : List (String × PointerType)) (i : Nat)
    (name : String) (mt : PointerType)
    (h : vtab_fields.get? i = some (name, mt)) :
    (inherit_methods ext_type vtab_fields).get? i =
      some (name, inherit_method_signature ext_type mt) := by
  unfold inherit_methods
  rw [List.get?_map, h]
  rfl

/-- C9: every method inherited from the parent's vtable enters the derived
method list at the same index with the same name; a plain method's first
argument type is replaced by the derived extension type, while a
class-method or static-method signature keeps its argument types
unchanged; return type and flags are always preserved. -/
theorem inherit_methods_self_type (ext_type : Ty)
    (vtab_fields : List (String × PointerType)) (i : Nat)
    (name : String) (mt : PointerType)
    (h : vtab_fields.get? i = some (name, mt)) :
    ∃ sig, (inherit_methods ext_type vtab_fields).get? i =
        some (name, sig) ∧
      sig.return_type = mt.base_type.return_type ∧
      sig.is_class = mt.base_type.is_class ∧
      sig.is_static = mt.base_type.is_static ∧
      ((mt.base_type.is_class = true ∨ mt.base_type.is_static = true) →
        sig.args = mt.base_type.args) ∧
      (mt.base_type.is_class = false → mt.base_type.is_static = false →
        ∀ a rest, mt.base_type.args = a :: rest →
          sig.args = ext_type :: rest) := by
  refine ⟨inherit_method_signature ext_type mt,
    inherit_methods_get? ext_type vtab_fields i name mt h, rfl, rfl, rfl,
    ?_, ?_⟩
  · intro hflag
    rcases hflag with hc | hs
    · simp [inherit_method_signature, hc]
    · simp [inherit_method_signature, hs]
  · intro hc hs a rest hargs
    simp [inherit_method_signature, hc, hs, hargs]

/-- C9 witness: inheriting `m(self: Base, v: f8) -> i4` into `Child`
rewrites the first argument to `Child`'s extension type; a static method
`u(f8) -> f8` is inherited unchanged. -/
theorem inherit_methods_self_type_witness :
    ∃ sig,
      (inherit_methods (Ty.extension "Child")
        [("m", ⟨⟨Ty.i4, [Ty.extension "Base", Ty.f8], false, false⟩⟩)]).get? 0 =
        some ("m", sig) ∧
      sig.return_type = Ty.i4 ∧
      sig.is_class = false ∧
      sig.is_static = false ∧
      ((false = true ∨ false = true) →
        sig.args = [Ty.extension "Base", Ty.f8]) ∧
      (false = false → false = false →
        ∀ a rest, [Ty.extension "Base", Ty.f8] = a :: rest →
          sig.args = Ty.extension "Child" :: rest) :=
  inherit_methods_self_type (Ty.extension "Child")
    [("m", ⟨⟨Ty.i4, [Ty.extension "Base", Ty.f8], false, false⟩⟩)]
    0 "m" ⟨⟨Ty.i4, [Ty.extension "Base", Ty.f8], false, false⟩⟩ rfl

/-- C10: calling `jit` with a constructed function type as first argument
together with a non-`None` `argtypes` keyword raises the calling-syntax
`TypeError` for every backend and target, before any compilation or class
building is attempted. -/
theorem jit_function_type_with_argtypes_type_error
    (return_type : Ty) (args : List Ty) (ats : List Ty)
    (backend target : String) (ps : String → Option Ty × List Ty) :
    jit (.functionType return_type args) (some ats) backend target ps =
      .typeErrorBothSyntax :=
  rfl

end Numba
